import Mathlib

/-!
Shallow embedding of the generic product-page extraction engine of
`src/scrapers/generic_scraper.py` (class `GenericScraper`): the numeric
normalizer `_parse_price`, the price locator `_find_price`, the name locator
`_find_name`, the stock locator `_find_stock`, and the orchestrating part of
`scrape` that assembles the result record from a parsed document.

The parsed HTML document (BeautifulSoup tree) is modelled as a tree of
element/text nodes; BeautifulSoup queries used by the source (`find`,
`find_all` with tag names, attribute filters, `string=` regex filters,
`get_text`, `.string`) are modelled as pre-order traversals of that tree.
Python floats are modelled as exact rationals (the prices involved are short
decimal literals), and `json.loads` is modelled by an executable JSON parser
over the script text, with numeric literals kept verbatim as their lexemes.
-/

set_option maxHeartbeats 1000000

namespace WebScrape

/-! ### String primitives (Python `str` operations used by the source) -/

/-- ASCII lowercasing of one character (Python `str.lower`; the inputs the
engine compares are ASCII-cased, accented letters are already lowercase). -/
def lowerChar (c : Char) : Char :=
  if 65 ≤ c.toNat ∧ c.toNat ≤ 90 then Char.ofNat (c.toNat + 32) else c

/-- Python `str.lower` (ASCII range). -/
def lowerS (s : String) : String := ⟨s.data.map lowerChar⟩

/-- Python whitespace for `str.split` / `str.strip` (ASCII set plus NBSP). -/
def pyWs (c : Char) : Bool :=
  c = ' ' || c = '\t' || c = '\n' || c = '\r' || c = '\x0b' || c = '\x0c' || c = '\xa0'

/-- Does `p` occur as a prefix of `s`? -/
def charsStart : List Char → List Char → Bool
  | [], _ => true
  | _ :: _, [] => false
  | p :: ps, c :: cs => p == c && charsStart ps cs

/-- Does `p` occur as a contiguous substring of `s`? -/
def charsInfix (p : List Char) : List Char → Bool
  | [] => charsStart p []
  | c :: cs => charsStart p (c :: cs) || charsInfix p cs

/-- Python `pat in s` for strings (substring containment). -/
def strContains (s pat : String) : Bool := charsInfix pat.data s.data

/-- Helper of `wsSplit`: accumulate the current (reversed) token. -/
def wsSplitAux (acc : List Char) : List Char → List String
  | [] => if acc.isEmpty then [] else [⟨acc.reverse⟩]
  | c :: cs =>
    if pyWs c then
      if acc.isEmpty then wsSplitAux [] cs else ⟨acc.reverse⟩ :: wsSplitAux [] cs
    else wsSplitAux (c :: acc) cs

/-- Python `str.split()` with no argument: split on whitespace runs, no empty
tokens. -/
def wsSplit (s : String) : List String := wsSplitAux [] s.data

/-- Python `str.strip()`. -/
def stripS (s : String) : String :=
  ⟨((s.data.dropWhile pyWs).reverse.dropWhile pyWs).reverse⟩

/-- Python `' '.join(...)`. -/
def joinSpace : List String → String
  | [] => ""
  | [s] => s
  | s :: rest => s ++ " " ++ joinSpace rest

/-- Concatenation of a list of strings (`''.join`). -/
def joinAll : List String → String
  | [] => ""
  | s :: rest => s ++ joinAll rest

/-! ### The document model (BeautifulSoup tree) -/

/-- A node of the parsed HTML document: either a text node or an element with
a tag name, an attribute list and children.  Attribute values are strings;
the (multi-valued) `class` attribute is stored unsplit and split on demand. -/
inductive Node where
  | textN : String → Node
  | elemN : String → List (String × String) → List Node → Node

/-- A parsed document: the top-level node list of the soup. -/
abbrev Doc := List Node

/-- First binding of an attribute name (html.parser keeps the first
occurrence of a duplicated attribute). -/
def attrLookup : List (String × String) → String → Option String
  | [], _ => none
  | (k, v) :: rest, key => if k = key then some v else attrLookup rest key

/-- `tag.get(key)` / `tag[key]`. -/
def Node.getAttr : Node → String → Option String
  | .textN _, _ => none
  | .elemN _ attrs _, key => attrLookup attrs key

/-- `key in tag.attrs`. -/
def Node.hasAttr (n : Node) (key : String) : Bool := (n.getAttr key).isSome

/-- `tag.name` (text nodes have no name). -/
def Node.tagName : Node → Option String
  | .textN _ => none
  | .elemN t _ _ => some t

mutual
/-- All nodes of a subtree in document (pre-)order, the root included. -/
def descendants : Node → List Node
  | .textN s => [.textN s]
  | .elemN t a cs => .elemN t a cs :: descList cs

/-- All nodes of a forest in document order. -/
def descList : List Node → List Node
  | [] => []
  | n :: ns => descendants n ++ descList ns
end

mutual
/-- The text-node strings of a subtree, in document order. -/
def textsOf : Node → List String
  | .textN s => [s]
  | .elemN _ _ cs => textsList cs

/-- The text-node strings of a forest, in document order. -/
def textsList : List Node → List String
  | [] => []
  | n :: ns => textsOf n ++ textsList ns
end

/-- `tag.get_text()`: concatenation of all descendant strings. -/
def getText (n : Node) : String := joinAll (textsOf n)

/-- `tag.get_text(strip=True)`: concatenation of the stripped strings. -/
def getTextStrip (n : Node) : String := joinAll ((textsOf n).map stripS)

/-- `soup.get_text()` over the whole document. -/
def docText (doc : Doc) : String := joinAll (textsList doc)

/-- `tag.string`: the single string of a tag (recursing through a unique
child), `None` when the tag has several children. -/
def nodeString : Node → Option String
  | .textN s => some s
  | .elemN _ _ [c] => nodeString c
  | .elemN _ _ _ => none

/-- `soup.find_all(predicate)`: all matching nodes in document order. -/
def findAllP (p : Node → Bool) (doc : Doc) : List Node := (descList doc).filter p

/-- `soup.find(predicate)`: the first matching node. -/
def findFirstP (p : Node → Bool) (doc : Doc) : Option Node := (findAllP p doc).head?

/-- Tag-name filter (`soup.find('meta', ...)`). -/
def isTag (t : String) (n : Node) : Bool := n.tagName == some t

/-- `soup.find('meta', property=v)`. -/
def metaWithProp (v : String) (n : Node) : Bool :=
  isTag "meta" n && n.getAttr "property" == some v

/-- `soup.find('meta', attrs={'name': v})` (a brace-free rendering of the
Python call). -/
def metaWithName (v : String) (n : Node) : Bool :=
  isTag "meta" n && n.getAttr "name" == some v

/-- Membership of the tag name in a list (`find_all(['span', 'div', ...])`). -/
def tagIn (ts : List String) (n : Node) : Bool :=
  match n.tagName with
  | some t => ts.contains t
  | none => false

/-! ### `_parse_price`: the numeric normalizer -/

/-- The characters kept by `re.sub(r'[^\d.,]', '', text)`. -/
def keepPriceChar (c : Char) : Bool := c.isDigit || c = '.' || c = ','

/-- `re.sub(r'[^\d.,]', '', text)`. -/
def cleanChars (s : String) : List Char := s.data.filter keepPriceChar

/-- `if ',' in clean: clean = clean.replace('.', '').replace(',', '.')`. -/
def commaFix (cs : List Char) : List Char :=
  if cs.contains ',' then
    (cs.filter (fun c => c ≠ '.')).map (fun c => if c = ',' then '.' else c)
  else cs

/-- Numeric value of a digit run (most significant first). -/
def digitsValAux (acc : Nat) : List Char → Nat
  | [] => acc
  | c :: cs => digitsValAux (acc * 10 + (c.toNat - 48)) cs

def digitsVal (cs : List Char) : Nat := digitsValAux 0 cs

/-- Split a character list at each `'.'`, keeping empty segments. -/
def splitDotAux (acc : List Char) : List Char → List (List Char)
  | [] => [acc.reverse]
  | c :: cs => if c = '.' then acc.reverse :: splitDotAux [] cs else splitDotAux (c :: acc) cs

def splitDot (cs : List Char) : List (List Char) := splitDotAux [] cs

/-- A rational `n / d` built in lowest terms by an explicit gcd computation
(kernel-evaluable, unlike the `Rat` field operations). -/
def decToRat (n d : Nat) (hd : d ≠ 0) : ℚ :=
  Rat.mk' (n / Nat.gcd n d : Nat) (d / Nat.gcd n d)
    (Nat.div_ne_zero_iff_of_dvd (Nat.gcd_dvd_right n d) |>.mpr
      ⟨hd, Nat.gcd_ne_zero_right hd⟩)
    (Nat.coprime_div_gcd_div_gcd (Nat.gcd_pos_of_pos_right n (Nat.pos_of_ne_zero hd)))

/-- The exact value of the decimal literal `intPart.fracPart`. -/
def decVal (intPart fracPart : List Char) : ℚ :=
  decToRat (digitsVal intPart * 10 ^ fracPart.length + digitsVal fracPart)
    (10 ^ fracPart.length) (pow_ne_zero _ (by norm_num))

/-- Python `float()` on a cleaned price string: only digit/dot strings of the
shapes `d+`, `d+.d*`, `.d+` parse; the exact decimal value is returned. -/
def floatParse (cs : List Char) : Option ℚ :=
  if cs.all (fun c => c.isDigit || c = '.') then
    match splitDot cs with
    | [intPart] => if intPart.isEmpty then none else some (decVal intPart [])
    | [intPart, fracPart] =>
      if intPart.isEmpty && fracPart.isEmpty then none
      else some (decVal intPart fracPart)
    | _ => none
  else none

/-- `GenericScraper._parse_price`: keep digits/dot/comma, apply the
comma-as-decimal fix, parse, and keep only values in the open sanity range
`(0, 10000)`. -/
def parse_price (text : String) : Option ℚ :=
  if text = "" then none
  else
    match floatParse (commaFix (cleanChars text)) with
    | some v => if 0 < v ∧ v < 10000 then some v else none
    | none => none

/-- Python truthiness of an optional float (`if val:`). -/
def qTruthy : Option ℚ → Bool
  | none => false
  | some v => decide (v ≠ 0)

/-! ### JSON values and `json.loads` (for the JSON-LD strategies) -/

/-- A parsed JSON value.  Numeric literals are kept verbatim as their lexeme:
the engine only ever feeds them to `str()`/`_parse_price` or tests their
truthiness, and the decimal lexeme carries the same information. -/
inductive JVal where
  | jstr : String → JVal
  | jnum : String → JVal
  | jbool : Bool → JVal
  | jnull : JVal
  | jarr : List JVal → JVal
  | jobj : List (String × JVal) → JVal

/-- Dictionary lookup on a decoded JSON object (`obj.get(key)`); with a
duplicated key the last binding wins, as in Python's `json.loads`. -/
def jgetFields : List (String × JVal) → String → Option JVal
  | [], _ => none
  | (k, v) :: rest, key =>
    match jgetFields rest key with
    | some r => some r
    | none => if k = key then some v else none

/-- Is every mantissa digit of a JSON number lexeme zero (the float value is
`0.0` exactly in that case, whatever the exponent)? -/
def numIsZero (lex : String) : Bool :=
  (lex.data.takeWhile (fun c => c ≠ 'e' && c ≠ 'E')).all (fun c => !c.isDigit || c = '0')

/-- Python truthiness of a decoded JSON value. -/
def jtruthy : JVal → Bool
  | .jstr s => decide (s ≠ "")
  | .jnum lex => !numIsZero lex
  | .jbool b => b
  | .jnull => false
  | .jarr xs => !xs.isEmpty
  | .jobj fs => !fs.isEmpty

mutual
/-- Python `repr` of a decoded JSON value (the shape `str()` falls back to on
containers). -/
def pyRepr : JVal → String
  | .jstr s => "'" ++ s ++ "'"
  | .jnum lex => lex
  | .jbool true => "True"
  | .jbool false => "False"
  | .jnull => "None"
  | .jarr xs => "[" ++ pyReprList xs ++ "]"
  | .jobj fs => "\x7b" ++ pyReprFields fs ++ "\x7d"

def pyReprList : List JVal → String
  | [] => ""
  | [v] => pyRepr v
  | v :: rest => pyRepr v ++ ", " ++ pyReprList rest

def pyReprFields : List (String × JVal) → String
  | [] => ""
  | [(k, v)] => "'" ++ k ++ "': " ++ pyRepr v
  | (k, v) :: rest => "'" ++ k ++ "': " ++ pyRepr v ++ ", " ++ pyReprFields rest
end

/-- Python `str()` of a decoded JSON value (`_parse_price` calls
`str(text)`); a string is itself, a number its lexeme. -/
def pyStr : JVal → String
  | .jstr s => s
  | v => pyRepr v

/-- JSON whitespace (`json.loads` skips space, tab, LF, CR). -/
def jWs (c : Char) : Bool := c = ' ' || c = '\t' || c = '\n' || c = '\r'

def skipWsJ (cs : List Char) : List Char := cs.dropWhile jWs

/-- Lex the body of a JSON string after the opening quote; handles the
single-character escapes, fails on `\\u` and other unsupported escapes. -/
def lexJStr (acc : List Char) : List Char → Option (List Char × List Char)
  | [] => none
  | '"' :: rest => some (acc.reverse, rest)
  | '\\' :: rest =>
    match rest with
    | '"' :: r => lexJStr ('"' :: acc) r
    | '\\' :: r => lexJStr ('\\' :: acc) r
    | '/' :: r => lexJStr ('/' :: acc) r
    | 'n' :: r => lexJStr ('\n' :: acc) r
    | 't' :: r => lexJStr ('\t' :: acc) r
    | 'r' :: r => lexJStr ('\r' :: acc) r
    | 'b' :: r => lexJStr ('\x08' :: acc) r
    | 'f' :: r => lexJStr ('\x0c' :: acc) r
    | _ => none
  | c :: rest => lexJStr (c :: acc) rest

/-- Lex a JSON number lexeme `-? int frac? exp?` (leading-zero rule of the
JSON grammar included). -/
def lexJNum (cs : List Char) : Option (List Char × List Char) :=
  let (sign, cs1) :=
    match cs with
    | '-' :: r => (['-'], r)
    | r => (([] : List Char), r)
  let (intDs, cs2) := cs1.span Char.isDigit
  if intDs.isEmpty then none
  else if intDs.length > 1 && intDs.headD '0' = '0' then none
  else
    let (fracDs, cs3) :=
      match cs2 with
      | '.' :: r =>
        let (ds, r') := r.span Char.isDigit
        if ds.isEmpty then ([], '.' :: r) else ('.' :: ds, r')
      | r => ([], r)
    if cs2 ≠ [] && cs2.headD ' ' = '.' && fracDs.isEmpty then none
    else
      let (expDs, cs4) :=
        match cs3 with
        | 'e' :: r =>
          (match r with
           | '+' :: r' => let (ds, r'') := r'.span Char.isDigit
                          if ds.isEmpty then ([], 'e' :: r) else ('e' :: '+' :: ds, r'')
           | '-' :: r' => let (ds, r'') := r'.span Char.isDigit
                          if ds.isEmpty then ([], 'e' :: r) else ('e' :: '-' :: ds, r'')
           | _ => let (ds, r') := r.span Char.isDigit
                  if ds.isEmpty then ([], 'e' :: r) else ('e' :: ds, r'))
        | 'E' :: r =>
          (match r with
           | '+' :: r' => let (ds, r'') := r'.span Char.isDigit
                          if ds.isEmpty then ([], 'E' :: r) else ('E' :: '+' :: ds, r'')
           | '-' :: r' => let (ds, r'') := r'.span Char.isDigit
                          if ds.isEmpty then ([], 'E' :: r) else ('E' :: '-' :: ds, r'')
           | _ => let (ds, r') := r.span Char.isDigit
                  if ds.isEmpty then ([], 'E' :: r) else ('E' :: ds, r'))
        | r => ([], r)
      if (cs3 ≠ [] && (cs3.headD ' ' = 'e' || cs3.headD ' ' = 'E')) && expDs.isEmpty
      then none
      else some (sign ++ intDs ++ fracDs ++ expDs, cs4)

mutual
/-- Fuelled recursive-descent parser for one JSON value (`json.loads`).
Leading whitespace is skipped; the fuel is an upper bound on the recursion
depth, each unit standing for at least one consumed input character. -/
def parseJ : Nat → List Char → Option (JVal × List Char)
  | 0, _ => none
  | fuel + 1, cs =>
    match skipWsJ cs with
    | [] => none
    | '"' :: rest => (lexJStr [] rest).map (fun p => (JVal.jstr ⟨p.1⟩, p.2))
    | '[' :: rest =>
      (match skipWsJ rest with
       | ']' :: rest2 => some (.jarr [], rest2)
       | rest2 => (parseJArr fuel rest2).map (fun p => (JVal.jarr p.1, p.2)))
    | '{' :: rest =>
      (match skipWsJ rest with
       | '}' :: rest2 => some (.jobj [], rest2)
       | rest2 => (parseJObj fuel rest2).map (fun p => (JVal.jobj p.1, p.2)))
    | 't' :: 'r' :: 'u' :: 'e' :: rest => some (.jbool true, rest)
    | 'f' :: 'a' :: 'l' :: 's' :: 'e' :: rest => some (.jbool false, rest)
    | 'n' :: 'u' :: 'l' :: 'l' :: rest => some (.jnull, rest)
    | rest => (lexJNum rest).map (fun p => (JVal.jnum ⟨p.1⟩, p.2))

/-- Items of a non-empty JSON array, up to and including the closing `]`. -/
def parseJArr : Nat → List Char → Option (List JVal × List Char)
  | 0, _ => none
  | fuel + 1, cs =>
    match parseJ fuel cs with
    | none => none
    | some (v, rest) =>
      match skipWsJ rest with
      | ',' :: rest2 =>
        (parseJArr fuel rest2).map (fun p => (v :: p.1, p.2))
      | ']' :: rest2 => some ([v], rest2)
      | _ => none

/-- Members of a non-empty JSON object, up to and including the closing
brace. -/
def parseJObj : Nat → List Char → Option (List (String × JVal) × List Char)
  | 0, _ => none
  | fuel + 1, cs =>
    match skipWsJ cs with
    | '"' :: rest =>
      (match lexJStr [] rest with
       | none => none
       | some (key, rest1) =>
         match skipWsJ rest1 with
         | ':' :: rest2 =>
           (match parseJ fuel rest2 with
            | none => none
            | some (v, rest3) =>
              match skipWsJ rest3 with
              | ',' :: rest4 =>
                (parseJObj fuel rest4).map (fun p => ((⟨key⟩, v) :: p.1, p.2))
              | '}' :: rest4 => some ([(⟨key⟩, v)], rest4)
              | _ => none)
         | _ => none)
    | _ => none
end

/-- `json.loads`: parse a full JSON document, requiring only trailing
whitespace after the value. -/
def jsonLoads (s : String) : Option JVal :=
  match parseJ (2 * s.data.length + 8) s.data with
  | some (v, rest) => if (skipWsJ rest).isEmpty then some v else none
  | none => none

/-! ### Shared pieces of the locator cascades -/

/-- The first element of the list on which `f` "returns" (a `for` loop whose
body may `return`): `some r` is a return with value `r`, `none` falls through
to the next iteration. -/
def firstRet {α β : Type} (f : α → Option β) : List α → Option β
  | [] => none
  | x :: xs =>
    match f x with
    | some r => some r
    | none => firstRet f xs

/-- `soup.find_all('script', type='application/ld+json')`. -/
def ldScripts (doc : Doc) : List Node :=
  findAllP (fun n => isTag "script" n && n.getAttr "type" == some "application/ld+json") doc

/-- `data.get('@type') == 'Product'`. -/
def isProduct (fs : List (String × JVal)) : Bool :=
  match jgetFields fs "@type" with
  | some (.jstr t) => t = "Product"
  | _ => false

/-- The whitespace-split class tokens rejoined with single spaces
(`' '.join(tag.get('class', []))`; BeautifulSoup stores `class`
multi-valued). -/
def classJoined (n : Node) : String := joinSpace (wsSplit (((n.getAttr "class")).getD ""))

/-! ### `_find_stock`: the stock locator -/

/-- The positive availability keywords of stock strategy 1. -/
def posAvailKw : List String := ["instock", "in stock", "available", "disponivel", "disponível"]

/-- The negative availability keywords of stock strategy 1. -/
def negAvailKw : List String := ["oos", "out of stock", "unavailable", "esgotado", "indisponivel"]

/-- The out-of-stock status phrases of stock strategy 3. -/
def oosPatterns : List String :=
  ["esgotado", "indisponível", "indisponivel", "fora de stock",
   "out of stock", "sold out", "not available", "indisponibile",
   "encomenda especial", "feito por encomenda", "avisar-me",
   "order from supplier", "encomenda a fornecedor", "product-unavailable"]

/-- The buy-verb alternatives of the cart-button regex of stock strategy 4. -/
def cartKeywords : List String :=
  ["comprar", "carrinho", "cesto", "adicionar", "add to cart", "buy", "purchase", "encomendar"]

/-- The availability meta element: `og:availability`, else
`product:availability`, else `name=availability`. -/
def availMeta (doc : Doc) : Option Node :=
  findFirstP (metaWithProp "og:availability") doc <|>
  findFirstP (metaWithProp "product:availability") doc <|>
  findFirstP (metaWithName "availability") doc

/-- Stock strategy 1: availability meta content against the two keyword
lists; `some b` is an early `return b`. -/
def stockStrat1 (doc : Doc) : Option Bool :=
  match availMeta doc with
  | none => none
  | some el =>
    match el.getAttr "content" with
    | none => none
    | some c =>
      if c = "" then none
      else
        let content := lowerS c
        if posAvailKw.any (fun k => strContains content k) then some true
        else if negAvailKw.any (fun k => strContains content k) then some false
        else none

/-- `check_schema_stock` of `_find_stock`: availability inside one offers
dict, `InStock` tested before `OutOfStock` (case-sensitively). -/
def checkSchemaStock : JVal → Option Bool
  | .jobj fs =>
    (match jgetFields fs "availability" with
     | some (.jstr avail) =>
       if strContains avail "InStock" then some true
       else if strContains avail "OutOfStock" then some false
       else none
     | _ => none)
  | _ => none

/-- Stock strategy 2 over the items of a top-level JSON-LD list: first
`Product` item whose `offers` value yields a verdict. -/
def stockFromItems : List JVal → Option Bool
  | [] => none
  | .jobj fs :: rest =>
    if isProduct fs then
      match checkSchemaStock ((jgetFields fs "offers").getD .jnull) with
      | some b => some b
      | none => stockFromItems rest
    else stockFromItems rest
  | _ :: rest => stockFromItems rest

/-- Stock strategy 2 on one decoded JSON-LD document. -/
def stockFromData : JVal → Option Bool
  | .jobj fs =>
    if isProduct fs then
      match jgetFields fs "offers" with
      | some (.jobj ofs) => checkSchemaStock (.jobj ofs)
      | some (.jarr (o :: _)) => checkSchemaStock o
      | some (.jarr []) => checkSchemaStock (.jobj [])
      | _ => none
    else none
  | .jarr items => stockFromItems items
  | _ => none

/-- Stock strategy 2 on one script element (a script without a single string
or with malformed JSON is skipped). -/
def scriptStock (n : Node) : Option Bool :=
  match nodeString n with
  | none => none
  | some s =>
    match jsonLoads s with
    | none => none
    | some d => stockFromData d

def stockStrat2 (doc : Doc) : Option Bool := firstRet scriptStock (ldScripts doc)

/-- The element kinds scanned by stock strategy 3. -/
def stockTextTags : List String := ["span", "div", "p", "button", "a"]

/-- Does one element carry a short out-of-stock status label? -/
def oosElement (n : Node) : Bool :=
  let text := lowerS (getTextStrip n)
  oosPatterns.any (fun p => strContains text p) && (wsSplit text).length < 10

/-- Stock strategy 3: a short out-of-stock status element, or one of the two
whole-page compound phrases. -/
def stockStrat3 (doc : Doc) : Bool :=
  (findAllP (tagIn stockTextTags) doc).any oosElement ||
  (let page := lowerS (docText doc)
   strContains page "indisponível online" || strContains page "stock esgotado")

/-- The element kinds scanned for purchase controls. -/
def cartBtnTags : List String := ["button", "input", "a"]

/-- The `find_all(['button','input','a'], string=re.compile(...))` filter:
the element's single string must contain a buy verb, case-insensitively. -/
def isCartButton (n : Node) : Bool :=
  tagIn cartBtnTags n &&
  (match nodeString n with
   | some s => cartKeywords.any (fun k => strContains (lowerS s) k)
   | none => false)

def cartButtons (doc : Doc) : List Node := findAllP isCartButton doc

/-- Is a purchase control skipped by the loop of stock strategy 4 (disabled
attribute/class, `aria-disabled=true`, or `hidden`)? -/
def btnSkipped (n : Node) : Bool :=
  (n.hasAttr "disabled" || strContains (lowerS (classJoined n)) "disabled") ||
  (n.getAttr "aria-disabled" == some "true" || n.hasAttr "hidden")

/-- Stock strategy 4 plus the final default: return `true` at the first
non-skipped purchase control, else `len(cart_buttons) > 0`. -/
def stockStrat4 (doc : Doc) : Bool :=
  let btns := cartButtons doc
  if btns.any (fun b => !btnSkipped b) then true else btns.length > 0

/-- `GenericScraper._find_stock`. -/
def find_stock (doc : Doc) : Bool :=
  match stockStrat1 doc with
  | some b => b
  | none =>
    match stockStrat2 doc with
    | some b => b
    | none =>
      if stockStrat3 doc then false
      else stockStrat4 doc

/-! ### `_find_price`: the price locator -/

/-- The meta price content of price strategy 1 (`product:price:amount`, else
`og:price:amount`; only a present, non-empty content attribute counts). -/
def metaPriceContent (doc : Doc) : Option String :=
  match findFirstP (metaWithProp "product:price:amount") doc <|>
        findFirstP (metaWithProp "og:price:amount") doc with
  | none => none
  | some el =>
    match el.getAttr "content" with
    | some c => if c = "" then none else some c
    | none => none

/-- Price strategy 1: `return self._parse_price(meta_price['content'])` —
note that the parse result is returned unconditionally once the meta tag with
truthy content exists, even when it is `None`. -/
def priceStrat1 (doc : Doc) : Option (Option ℚ) := (metaPriceContent doc).map parse_price

/-- `offers.get('price') or offers.get('lowPrice')` followed by
`if price:` — the first truthy of the two lookups. -/
def pickOfferPrice (ofs : List (String × JVal)) : Option JVal :=
  match jgetFields ofs "price" with
  | some v =>
    if jtruthy v then some v
    else
      match jgetFields ofs "lowPrice" with
      | some w => if jtruthy w then some w else none
      | none => none
  | none =>
    match jgetFields ofs "lowPrice" with
    | some w => if jtruthy w then some w else none
    | none => none

/-- Price strategy 2 over the items of a top-level JSON-LD list: only a
dict-valued `offers` is consulted there; a failed truthiness test moves on to
the next item. -/
def priceFromItems : List JVal → Option (Option ℚ)
  | [] => none
  | .jobj fs :: rest =>
    if isProduct fs then
      match jgetFields fs "offers" with
      | some (.jobj ofs) =>
        (match pickOfferPrice ofs with
         | some p => some (parse_price (pyStr p))
         | none => priceFromItems rest)
      | _ => priceFromItems rest
    else priceFromItems rest
  | _ :: rest => priceFromItems rest

/-- Price strategy 2 on one decoded JSON-LD document.  For a top-level
`Product` object, `offers` may be a dict or a non-empty list with a dict
head; a non-dict head raises inside the `try` and the script is skipped. -/
def priceFromData : JVal → Option (Option ℚ)
  | .jobj fs =>
    if isProduct fs then
      match jgetFields fs "offers" with
      | some (.jobj ofs) =>
        (match pickOfferPrice ofs with
         | some p => some (parse_price (pyStr p))
         | none => none)
      | some (.jarr (.jobj ofs :: _)) =>
        (match pickOfferPrice ofs with
         | some p => some (parse_price (pyStr p))
         | none => none)
      | some (.jarr _) => none
      | _ => none
    else none
  | .jarr items => priceFromItems items
  | _ => none

/-- Price strategy 2 on one script element. -/
def scriptPrice (n : Node) : Option (Option ℚ) :=
  match nodeString n with
  | none => none
  | some s =>
    match jsonLoads s with
    | none => none
    | some d => priceFromData d

def priceStrat2 (doc : Doc) : Option (Option ℚ) := firstRet scriptPrice (ldScripts doc)

/-- The data attributes of price strategy 3, in priority order. -/
def priceDataAttrs : List String := ["data-price", "data-product-price", "data-price-amount"]

/-- Price strategy 3: first element carrying each data attribute; a value
that fails to normalize lets the loop continue with the next attribute. -/
def priceStrat3 : Doc → List String → Option ℚ
  | _, [] => none
  | doc, attr :: rest =>
    match findFirstP (fun n => n.hasAttr attr) doc with
    | some el =>
      let val := parse_price ((el.getAttr attr).getD "")
      if qTruthy val then val else priceStrat3 doc rest
    | none => priceStrat3 doc rest

/-- The keyword stems of price strategy 4. -/
def pricePatterns : List String := ["price", "preco", "precio", "prix", "cost", "value"]

/-- The element kinds scanned by price strategy 4. -/
def priceTagKinds : List String := ["span", "div", "p", "meta", "strong", "b"]

/-- `elem.get_text(strip=True) or elem.get('content') or ''`. -/
def elemPriceText (n : Node) : String :=
  let t := getTextStrip n
  if t ≠ "" then t
  else
    match n.getAttr "content" with
    | some c => if c ≠ "" then c else ""
    | none => ""

/-- The class/id keyword filter of price strategy 4. -/
def priceCandidate (pattern : String) (n : Node) : Bool :=
  tagIn priceTagKinds n &&
  (strContains (lowerS (classJoined n)) pattern ||
   strContains (lowerS ((n.getAttr "id").getD "")) pattern)

/-- First candidate element whose text normalizes to a truthy price. -/
def firstParsedPrice : List Node → Option ℚ
  | [] => none
  | n :: rest =>
    let val := parse_price (elemPriceText n)
    if qTruthy val then val else firstParsedPrice rest

/-- One iteration of price strategy 4: the `itemprop=price` element first,
then the class/id candidates for this keyword stem. -/
def priceStrat4One (doc : Doc) (pattern : String) : Option ℚ :=
  match findFirstP (fun n => n.getAttr "itemprop" == some "price") doc with
  | some el =>
    let val := parse_price (elemPriceText el)
    if qTruthy val then val
    else firstParsedPrice (findAllP (priceCandidate pattern) doc)
  | none => firstParsedPrice (findAllP (priceCandidate pattern) doc)

/-- Price strategy 4 over the keyword stems. -/
def priceStrat4 : Doc → List String → Option ℚ
  | _, [] => none
  | doc, p :: rest =>
    match priceStrat4One doc p with
    | some v => some v
    | none => priceStrat4 doc rest

/-! Price strategy 5: the currency regex fallback.  The four patterns
`€\s*([\d.,]+)`, `([\d.,]+)\s*€`, `EUR\s*([\d.,]+)`, `([\d.,]+)\s*EUR` are
modelled by two direction-specific scanners over the page text; a capture
group is a maximal run of digit/dot/comma characters, matches are
non-overlapping and found left to right, exactly as `re.findall`. -/

/-- `[\d.,]` of the fallback regex. -/
def runChar (c : Char) : Bool := c.isDigit || c = '.' || c = ','

/-- `\s` of the fallback regex (Python ASCII whitespace plus NBSP). -/
def reWs (c : Char) : Bool :=
  c = ' ' || c = '\t' || c = '\n' || c = '\r' || c = '\x0b' || c = '\x0c' || c = '\xa0'

/-- Consume `marker` as a literal prefix. -/
def afterMarker : List Char → List Char → Option (List Char)
  | [], rest => some rest
  | _ :: _, [] => none
  | m :: ms, c :: rest => if m = c then afterMarker ms rest else none

/-- `re.findall(marker + r'\s*([\d.,]+)', text)` (fuelled scan; one unit of
fuel per input position). -/
def scanA (marker : List Char) : Nat → List Char → List String
  | 0, _ => []
  | _, [] => []
  | fuel + 1, c :: cs =>
    match afterMarker marker (c :: cs) with
    | some rest1 =>
      let rest2 := rest1.dropWhile reWs
      let run := rest2.takeWhile runChar
      if run.isEmpty then scanA marker fuel cs
      else String.mk run :: scanA marker fuel (rest2.dropWhile runChar)
    | none => scanA marker fuel cs

/-- `re.findall(r'([\d.,]+)\s*' + marker, text)`. -/
def scanB (marker : List Char) : Nat → List Char → List String
  | 0, _ => []
  | _, [] => []
  | fuel + 1, c :: cs =>
    let run := (c :: cs).takeWhile runChar
    if run.isEmpty then scanB marker fuel cs
    else
      match afterMarker marker (((c :: cs).dropWhile runChar).dropWhile reWs) with
      | some rest3 => String.mk run :: scanB marker fuel rest3
      | none => scanB marker fuel cs

def findallA (marker : List Char) (cs : List Char) : List String :=
  scanA marker (cs.length + 1) cs

def findallB (marker : List Char) (cs : List Char) : List String :=
  scanB marker (cs.length + 1) cs

/-- The inner loop of strategy 5: first match whose value is truthy and lies
in the tighter display band `10 < val < 10000`. -/
def firstBand : List String → Option ℚ
  | [] => none
  | m :: ms =>
    match parse_price m with
    | some v => if v ≠ 0 ∧ 10 < v ∧ v < 10000 then some v else firstBand ms
    | none => firstBand ms

/-- The pattern loop of strategy 5 (patterns in source order). -/
def bandLoop : List (List String) → Option ℚ
  | [] => none
  | ms :: rest =>
    match firstBand ms with
    | some v => some v
    | none => bandLoop rest

/-- Price strategy 5 on the whole page text. -/
def priceStrat5 (doc : Doc) : Option ℚ :=
  let text := (docText doc).data
  bandLoop
    [findallA ['€'] text, findallB ['€'] text,
     findallA ['E', 'U', 'R'] text, findallB ['E', 'U', 'R'] text]

/-- `GenericScraper._find_price`: the five-strategy cascade.  Strategies 1
and 2 `return` their parse result directly (even `None`); strategies 3–5 only
return on success. -/
def find_price (doc : Doc) : Option ℚ :=
  match priceStrat1 doc with
  | some r => r
  | none =>
    match priceStrat2 doc with
    | some r => r
    | none =>
      match priceStrat3 doc priceDataAttrs with
      | some v => some v
      | none =>
        match priceStrat4 doc pricePatterns with
        | some v => some v
        | none => priceStrat5 doc

/-! ### `_find_name` and the orchestrator -/

/-- `GenericScraper._find_name`: og:title content if that meta exists (even
when the attribute is missing or empty), else the first `h1`'s stripped text,
else the `title`'s stripped text, else `None`. -/
def find_name (doc : Doc) : Option String :=
  match findFirstP (metaWithProp "og:title") doc with
  | some el => el.getAttr "content"
  | none =>
    match findFirstP (isTag "h1") doc with
    | some h1 => some (getTextStrip h1)
    | none =>
      match findFirstP (isTag "title") doc with
      | some t => some (getTextStrip t)
      | none => none

/-- The record assembled by `scrape` on success. -/
structure ExtractionResult where
  price : ℚ
  product_name : String
  url : String
  currency : String
  in_stock : Bool
deriving DecidableEq

/-- Python string-option truthiness (`name or "Unknown Product"`). -/
def strTruthy : Option String → Option String
  | some s => if s = "" then none else some s
  | none => none

/-- The pure part of `GenericScraper.scrape` after the document is parsed:
run the three locators and assemble the record, `None` when the price is
falsy. -/
def extract (doc : Doc) (url : String) : Option ExtractionResult :=
  let price := find_price doc
  let name := find_name doc
  let in_stock := find_stock doc
  match price with
  | some p =>
    if p ≠ 0 then some ⟨p, (strTruthy name).getD "Unknown Product", url, "EUR", in_stock⟩
    else none
  | none => none

/-! ### Concrete documents used in the claim theorems -/

/-- A document whose meta price tag content does not normalize while a
`data-price` attribute elsewhere does. -/
def c1doc : Doc :=
  [.elemN "meta" [("property", "product:price:amount"), ("content", "abc")] [],
   .elemN "div" [("data-price", "50.00")] []]

/-- A document whose only stock signal is a disabled "Comprar" button. -/
def c2doc : Doc := [.elemN "button" [("disabled", "disabled")] [.textN "Comprar"]]

/-- A document carrying only a parseable meta price tag. -/
def c3doc : Doc :=
  [.elemN "meta" [("property", "product:price:amount"), ("content", "25,90")] []]

/-- A JSON-LD block whose top level is a list containing a `Product` whose
`offers` is itself a list. -/
def c6json : String :=
  "[\x7b\"@type\": \"Product\", \"offers\": [\x7b\"price\": \"50\", \"availability\": \"http://schema.org/InStock\"\x7d]\x7d]"

/-- A document whose only signal is the JSON-LD block `c6json`. -/
def c6doc : Doc := [.elemN "script" [("type", "application/ld+json")] [.textN c6json]]

/-- The decoded value of `c6json`. -/
def c6val : JVal :=
  .jarr [.jobj [("@type", .jstr "Product"),
                ("offers", .jarr [.jobj [("price", .jstr "50"),
                                         ("availability", .jstr "http://schema.org/InStock")]])]]

/-- A document with an `og:title` meta that has no content attribute, plus a
non-empty `h1`. -/
def c7doc : Doc :=
  [.elemN "meta" [("property", "og:title")] [],
   .elemN "h1" [] [.textN "Product X"]]

/-- A document with an `og:title` meta whose content is present. -/
def c7wdoc : Doc := [.elemN "meta" [("property", "og:title"), ("content", "Foo")] []]

/-- A document whose only price signal is loose page text with a currency
symbol. -/
def c8doc : Doc := [.elemN "p" [] [.textN "Total: €1.234,56 hoje"]]

/-- A document whose availability meta content is `Indisponivel`. -/
def c10doc : Doc :=
  [.elemN "meta" [("property", "og:availability"), ("content", "Indisponivel")] []]

/-! ## Helper lemmas -/

theorem decToRat_eq (n d : Nat) (hd : d ≠ 0) : decToRat n d hd = (n : ℚ) / d := by
  have hgne : Nat.gcd n d ≠ 0 := Nat.gcd_ne_zero_right hd
  have hg : (Nat.gcd n d : ℚ) ≠ 0 := by exact_mod_cast hgne
  have hdq : (d : ℚ) ≠ 0 := by exact_mod_cast hd
  rw [decToRat, Rat.mk'_eq_divInt, Rat.divInt_eq_div, Int.cast_natCast, Int.cast_natCast,
    Nat.cast_div (Nat.gcd_dvd_left n d) hg, Nat.cast_div (Nat.gcd_dvd_right n d) hg]
  rw [div_div_div_cancel_right₀]
  assumption

theorem decVal_123456 : decVal ['1', '2', '3', '4'] ['5', '6'] = 123456 / 100 := by
  rw [decVal, decToRat_eq]
  norm_num [show digitsVal ['1', '2', '3', '4'] = 1234 from by decide,
            show digitsVal ['5', '6'] = 56 from by decide]

/-- Any value `_parse_price` returns satisfies the sanity bounds. -/
theorem parse_price_bounds (s : String) (v : ℚ) (h : parse_price s = some v) :
    0 < v ∧ v < 10000 := by
  unfold parse_price at h
  split at h
  · simp at h
  · split at h
    next w hw =>
      split at h
      next hcond => cases h; exact hcond
      next => simp at h
    next => simp at h

theorem qTruthy_some {o : Option ℚ} (h : qTruthy o = true) : ∃ v, o = some v ∧ v ≠ 0 := by
  cases o with
  | none => simp [qTruthy] at h
  | some v => exact ⟨v, rfl, by simpa [qTruthy] using h⟩

theorem firstRet_some {α β : Type} (f : α → Option β) (l : List α) (r : β)
    (h : firstRet f l = some r) : ∃ x ∈ l, f x = some r := by
  induction l with
  | nil => simp [firstRet] at h
  | cons x xs ih =>
    rw [firstRet] at h
    split at h
    next b heq => exact ⟨x, by simp, by rw [heq, h]⟩
    next => obtain ⟨y, hy, hfy⟩ := ih h; exact ⟨y, by simp [hy], hfy⟩

/-- Every value returned by price strategy 2 on a top-level list is a
`_parse_price` result. -/
theorem priceFromItems_shape (items : List JVal) (r : Option ℚ)
    (h : priceFromItems items = some r) : ∃ t, r = parse_price t := by
  induction items with
  | nil => simp [priceFromItems] at h
  | cons hd rest ih =>
    cases hd with
    | jobj fs =>
      rw [priceFromItems] at h
      split at h
      · split at h
        next ofs heq =>
          split at h
          next p hp => exact ⟨pyStr p, by cases h; rfl⟩
          next => exact ih h
        next => exact ih h
      · exact ih h
    | jstr s =>
      rw [priceFromItems] at h
      · exact ih h
      · simp
    | jnum s =>
      rw [priceFromItems] at h
      · exact ih h
      · simp
    | jbool b =>
      rw [priceFromItems] at h
      · exact ih h
      · simp
    | jnull =>
      rw [priceFromItems] at h
      · exact ih h
      · simp
    | jarr xs =>
      rw [priceFromItems] at h
      · exact ih h
      · simp

/-- Every value returned by price strategy 2 on one decoded document is a
`_parse_price` result. -/
theorem priceFromData_shape (d : JVal) (r : Option ℚ)
    (h : priceFromData d = some r) : ∃ t, r = parse_price t := by
  cases d with
  | jobj fs =>
    rw [priceFromData] at h
    split at h
    · split at h
      next ofs heq =>
        split at h
        next p hp => exact ⟨pyStr p, by cases h; rfl⟩
        next => simp at h
      next ofs rest heq =>
        split at h
        next p hp => exact ⟨pyStr p, by cases h; rfl⟩
        next => simp at h
      next => simp at h
      next => simp at h
    · simp at h
  | jarr items => exact priceFromItems_shape items r (by rwa [priceFromData] at h)
  | jstr s => simp [priceFromData] at h
  | jnum s => simp [priceFromData] at h
  | jbool b => simp [priceFromData] at h
  | jnull => simp [priceFromData] at h

theorem scriptPrice_shape (n : Node) (r : Option ℚ)
    (h : scriptPrice n = some r) : ∃ t, r = parse_price t := by
  rw [scriptPrice] at h
  split at h
  · simp at h
  · split at h
    · simp at h
    next d hd => exact priceFromData_shape d r h

theorem priceStrat1_bounds (doc : Doc) (v : ℚ)
    (h : priceStrat1 doc = some (some v)) : 0 < v ∧ v < 10000 := by
  rw [priceStrat1] at h
  rw [Option.map_eq_some'] at h
  obtain ⟨c, _, hc⟩ := h
  exact parse_price_bounds c v hc

theorem priceStrat2_bounds (doc : Doc) (v : ℚ)
    (h : priceStrat2 doc = some (some v)) : 0 < v ∧ v < 10000 := by
  obtain ⟨n, _, hn⟩ := firstRet_some _ _ _ h
  obtain ⟨t, ht⟩ := scriptPrice_shape n _ hn
  exact parse_price_bounds t v ht.symm

theorem priceStrat3_bounds (doc : Doc) (attrs : List String) (v : ℚ)
    (h : priceStrat3 doc attrs = some v) : 0 < v ∧ v < 10000 := by
  induction attrs with
  | nil => simp [priceStrat3] at h
  | cons a rest ih =>
    rw [priceStrat3] at h
    split at h
    next el hel =>
      simp only [] at h
      split at h
      next => exact parse_price_bounds _ v h
      next => exact ih h
    next => exact ih h

theorem firstParsedPrice_bounds (ns : List Node) (v : ℚ)
    (h : firstParsedPrice ns = some v) : 0 < v ∧ v < 10000 := by
  induction ns with
  | nil => simp [firstParsedPrice] at h
  | cons n rest ih =>
    rw [firstParsedPrice] at h
    split at h
    next => exact parse_price_bounds _ v h
    next => exact ih h

theorem priceStrat4One_bounds (doc : Doc) (pat : String) (v : ℚ)
    (h : priceStrat4One doc pat = some v) : 0 < v ∧ v < 10000 := by
  rw [priceStrat4One] at h
  split at h
  next el hel =>
    simp only [] at h
    split at h
    next => exact parse_price_bounds _ v h
    next => exact firstParsedPrice_bounds _ v h
  next => exact firstParsedPrice_bounds _ v h

theorem priceStrat4_bounds (doc : Doc) (pats : List String) (v : ℚ)
    (h : priceStrat4 doc pats = some v) : 0 < v ∧ v < 10000 := by
  induction pats with
  | nil => simp [priceStrat4] at h
  | cons p rest ih =>
    rw [priceStrat4] at h
    split at h
    next w hw => cases h; exact priceStrat4One_bounds doc p v hw
    next => exact ih h

/-- Everything the strategy-5 match loop returns lies in the display band. -/
theorem firstBand_band (ms : List String) (v : ℚ)
    (h : firstBand ms = some v) : 10 < v ∧ v < 10000 := by
  induction ms with
  | nil => simp [firstBand] at h
  | cons m rest ih =>
    rw [firstBand] at h
    split at h
    next w hw =>
      split at h
      next hc => cases h; exact ⟨hc.2.1, hc.2.2⟩
      next => exact ih h
    next => exact ih h

theorem bandLoop_band (l : List (List String)) (v : ℚ)
    (h : bandLoop l = some v) : 10 < v ∧ v < 10000 := by
  induction l with
  | nil => simp [bandLoop] at h
  | cons ms rest ih =>
    rw [bandLoop] at h
    split at h
    next w hw => cases h; exact firstBand_band ms v hw
    next => exact ih h

theorem priceStrat5_band (doc : Doc) (v : ℚ)
    (h : priceStrat5 doc = some v) : 10 < v ∧ v < 10000 := by
  rw [priceStrat5] at h
  exact bandLoop_band _ v h

/-- Every non-null result of the price locator lies in the open sanity range
`(0, 10000)`. -/
theorem find_price_bounds (doc : Doc) (v : ℚ) (h : find_price doc = some v) :
    0 < v ∧ v < 10000 := by
  rw [find_price] at h
  split at h
  next r h1 => rw [h] at h1; exact priceStrat1_bounds doc v h1
  next h1 =>
    split at h
    next r h2 => rw [h] at h2; exact priceStrat2_bounds doc v h2
    next h2 =>
      split at h
      next w h3 => cases h; exact priceStrat3_bounds doc _ v h3
      next h3 =>
        split at h
        next w h4 => cases h; exact priceStrat4_bounds doc _ v h4
        next h4 =>
          have hb := priceStrat5_band doc v h
          exact ⟨lt_trans (by norm_num) hb.1, hb.2⟩

theorem find_price_ne_zero (doc : Doc) (v : ℚ) (h : find_price doc = some v) : v ≠ 0 :=
  (find_price_bounds doc v h).1.ne'

theorem charsStart_iff (p s : List Char) : charsStart p s = true ↔ p <+: s := by
  induction p generalizing s with
  | nil => simp [charsStart]
  | cons a ps ih =>
    cases s with
    | nil => simp [charsStart]
    | cons c cs => simp [charsStart, List.cons_prefix_cons, ih]

theorem charsInfix_iff (p s : List Char) : charsInfix p s = true ↔ p <:+: s := by
  induction s with
  | nil => simp [charsInfix, charsStart_iff, List.prefix_nil, List.infix_nil]
  | cons c cs ih => simp [charsInfix, charsStart_iff, ih, List.infix_cons_iff]

/-- Substring containment is transitive through an intermediate pattern. -/
theorem strContains_mono (s p q : String) (hpq : charsInfix p.data q.data = true)
    (h : strContains s q = true) : strContains s p = true := by
  rw [strContains, charsInfix_iff] at h ⊢
  exact ((charsInfix_iff _ _).mp hpq).trans h

/-- The assembled product name is never the empty string. -/
theorem strTruthy_getD_ne (o : Option String) :
    (strTruthy o).getD "Unknown Product" ≠ "" := by
  cases o with
  | none => simp [strTruthy]
  | some s =>
    by_cases hs : s = ""
    · simp [strTruthy, hs]
    · simp [strTruthy, hs]

/-! ## Claim theorems -/

/-- C1 (counterexample): with a `product:price:amount` meta tag whose content
`"abc"` does not normalize and a `data-price="50.00"` attribute that does,
`locatePrice` returns null even though strategy 3 yields a usable value —
refuting that an unparseable meta price lets the cascade continue and that
null is returned only when no strategy yields a usable value. -/
theorem c1_counterexample :
    find_price c1doc = none ∧ priceStrat3 c1doc priceDataAttrs = some 50 := by
  refine ⟨by decide, ?_⟩
  rw [show priceStrat3 c1doc priceDataAttrs = some (decVal ['5', '0'] ['0', '0']) from by decide]
  rw [show decVal ['5', '0'] ['0', '0'] = 50 from ?_]
  rw [decVal, decToRat_eq]
  norm_num [show digitsVal ['5', '0'] = 50 from by decide,
            show digitsVal ['0', '0'] = 0 from by decide]

/-- C1 (amended): `locatePrice` returns null exactly when the meta strategy
fires but its content fails normalization, or the meta strategy does not fire
and the JSON-LD strategy fires with a candidate failing normalization, or no
strategy fires at all; only for strategies 3–5 does a failed normalization
let the cascade continue. -/
theorem c1_price_cascade (doc : Doc) :
    find_price doc = none ↔
      (priceStrat1 doc = some none ∨
       (priceStrat1 doc = none ∧ priceStrat2 doc = some none) ∨
       (priceStrat1 doc = none ∧ priceStrat2 doc = none ∧
        priceStrat3 doc priceDataAttrs = none ∧ priceStrat4 doc pricePatterns = none ∧
        priceStrat5 doc = none)) := by
  rcases h1 : priceStrat1 doc with _ | r1
  · rcases h2 : priceStrat2 doc with _ | r2
    · rcases h3 : priceStrat3 doc priceDataAttrs with _ | v3
      · rcases h4 : priceStrat4 doc pricePatterns with _ | v4
        · simp [find_price, h1, h2, h3, h4]
        · simp [find_price, h1, h2, h3, h4]
      · simp [find_price, h1, h2, h3]
    · rcases r2 with _ | v2 <;> simp [find_price, h1, h2]
  · rcases r1 with _ | v1 <;> simp [find_price, h1]

/-- C2 (code evaluated at the failing input): for the document whose only
stock signal is a single disabled "Comprar" button — no availability meta, no
JSON-LD verdict, no out-of-stock text, and every cart button skipped by the
disabled check — `locateStock` returns `true`, because the final
`len(cart_buttons) > 0` counts the disabled button again. -/
theorem c2_disabled_button_eval :
    (cartButtons c2doc).length = 1 ∧ (cartButtons c2doc).all btnSkipped = true ∧
    stockStrat1 c2doc = none ∧ stockStrat2 c2doc = none ∧ stockStrat3 c2doc = false ∧
    find_stock c2doc = true :=
  ⟨by decide, by decide, by decide, by decide, by decide, by decide⟩

/-- C3: every non-null extraction has a price inside the open sanity range
`(0, 10000)`, a non-empty (hence non-null) product name, and a definite
boolean stock flag (the stock locator's verdict). -/
theorem c3_result_invariants (doc : Doc) (url : String) (r : ExtractionResult)
    (h : extract doc url = some r) :
    (0 < r.price ∧ r.price < 10000) ∧ r.product_name ≠ "" ∧ r.in_stock = find_stock doc := by
  simp only [extract] at h
  split at h
  next p hp =>
    rw [if_pos (find_price_ne_zero doc p hp)] at h
    cases h
    exact ⟨find_price_bounds doc p hp, strTruthy_getD_ne _, rfl⟩
  next => simp at h

/-- C3 witness: the invariants instantiated at a concrete successful
extraction. -/
theorem c3_witness :
    (0 < decVal ['2', '5'] ['9', '0'] ∧ decVal ['2', '5'] ['9', '0'] < 10000) ∧
    ("Unknown Product" : String) ≠ "" ∧ false = find_stock c3doc :=
  c3_result_invariants c3doc "u"
    ⟨decVal ['2', '5'] ['9', '0'], "Unknown Product", "u", "EUR", false⟩ (by decide)

/-- C4: the extraction is null exactly when the price locator is null; name
and stock signals never rescue a priceless document. -/
theorem c4_null_iff_price_null (doc : Doc) (url : String) :
    extract doc url = none ↔ find_price doc = none := by
  rcases h : find_price doc with _ | p
  · simp [extract, h]
  · simp [extract, h, find_price_ne_zero doc p h]

/-- C5: the normalizer strips to digits/dot/comma, treats a comma as the
decimal separator (removing dots) when present, and rejects parse failures
and out-of-range values: `normalize("R$ 1.234,56") = 1234.56`,
`normalize("abc") = null`, `normalize("99999,00") = null`,
`normalize("0,00") = null`, and every accepted value lies in `(0, 10000)`. -/
theorem c5_normalize_contract :
    parse_price "R$ 1.234,56" = some (123456 / 100) ∧
    parse_price "abc" = none ∧
    parse_price "99999,00" = none ∧
    parse_price "0,00" = none ∧
    ∀ s v, parse_price s = some v → 0 < v ∧ v < 10000 := by
  refine ⟨?_, by decide, by decide, by decide, parse_price_bounds⟩
  rw [show parse_price "R$ 1.234,56" = some (decVal ['1', '2', '3', '4'] ['5', '6']) from
        by decide,
      decVal_123456]

/-- C5 witness: the bound clause applied at the concrete parse of
`"R$ 1.234,56"`. -/
theorem c5_witness : 0 < (123456 / 100 : ℚ) ∧ (123456 / 100 : ℚ) < 10000 :=
  c5_normalize_contract.2.2.2.2 "R$ 1.234,56" (123456 / 100) c5_normalize_contract.1

/-- C6 (counterexample): for a document whose only signal is a top-level
JSON-LD *list* containing a `Product` whose `offers` is a list with price
`"50"` and availability `InStock`, `locatePrice` returns null and
`locateStock` returns false — the first offers entry is not read in the
top-level-list case, refuting the claim for that shape. -/
theorem c6_counterexample :
    jsonLoads c6json = some c6val ∧ find_price c6doc = none ∧ find_stock c6doc = false :=
  ⟨rfl, by decide, by decide⟩

/-- C6 (amended): when the `Product` is the top-level JSON-LD object, both
locators read exactly the first entry of a list-valued `offers` (the price
side behaves as if `offers` were that first dict, the stock side checks that
first entry); but when the `Product` is an element of a top-level list, a
list-valued `offers` is skipped by both locators and only a dict-valued
`offers` is read. -/
theorem c6_offers_list_handling :
    (∀ fs ofs rest, isProduct fs = true →
       jgetFields fs "offers" = some (.jarr (.jobj ofs :: rest)) →
       priceFromData (.jobj fs) =
         priceFromData (.jobj [("@type", .jstr "Product"), ("offers", .jobj ofs)])) ∧
    (∀ fs o rest, isProduct fs = true →
       jgetFields fs "offers" = some (.jarr (o :: rest)) →
       stockFromData (.jobj fs) = checkSchemaStock o) ∧
    (∀ fs l items, isProduct fs = true →
       jgetFields fs "offers" = some (.jarr l) →
       priceFromItems (.jobj fs :: items) = priceFromItems items ∧
       stockFromItems (.jobj fs :: items) = stockFromItems items) := by
  refine ⟨?_, ?_, ?_⟩
  · intro fs ofs rest h1 h2
    have hR : priceFromData (.jobj [("@type", JVal.jstr "Product"), ("offers", JVal.jobj ofs)]) =
        (match pickOfferPrice ofs with
         | some p => some (parse_price (pyStr p))
         | none => none) := rfl
    rw [hR]
    simp [priceFromData, h1, h2]
  · intro fs o rest h1 h2
    simp [stockFromData, h1, h2]
  · intro fs l items h1 h2
    constructor
    · simp [priceFromItems, h1, h2]
    · simp [stockFromItems, h1, h2, checkSchemaStock]

/-- C6 witness: the amended first-entry rule applied at a concrete top-level
`Product` object with a two-entry offers list. -/
theorem c6_witness :
    priceFromData (.jobj [("@type", JVal.jstr "Product"),
                          ("offers", .jarr [.jobj [("price", JVal.jstr "75")], .jnull])]) =
      priceFromData (.jobj [("@type", JVal.jstr "Product"),
                            ("offers", .jobj [("price", JVal.jstr "75")])]) :=
  c6_offers_list_handling.1 _ [("price", JVal.jstr "75")] [JVal.jnull] rfl rfl

/-- C7 (counterexample): a document holding an `og:title` meta with no
content attribute and a non-empty `h1` makes `locateName` return null —
a present-but-empty earlier source does suppress a non-empty later one,
refuting the claim. -/
theorem c7_counterexample :
    find_name c7doc = none ∧
    getTextStrip (Node.elemN "h1" [] [.textN "Product X"]) = "Product X" :=
  ⟨rfl, rfl⟩

/-- C7 (amended): `locateName` short-circuits on *presence*, not
non-emptiness: if an `og:title` meta exists the answer is its content
attribute (null when absent, empty when empty); else the first `h1`'s
stripped text (even when empty); else the `title`'s stripped text; null only
when none of the three elements exists. -/
theorem c7_name_presence_shortcircuit (doc : Doc) :
    (∀ el, findFirstP (metaWithProp "og:title") doc = some el →
       find_name doc = el.getAttr "content") ∧
    (findFirstP (metaWithProp "og:title") doc = none →
     ∀ h1, findFirstP (isTag "h1") doc = some h1 →
       find_name doc = some (getTextStrip h1)) ∧
    (findFirstP (metaWithProp "og:title") doc = none →
     findFirstP (isTag "h1") doc = none →
     ∀ t, findFirstP (isTag "title") doc = some t →
       find_name doc = some (getTextStrip t)) ∧
    (findFirstP (metaWithProp "og:title") doc = none →
     findFirstP (isTag "h1") doc = none →
     findFirstP (isTag "title") doc = none →
     find_name doc = none) := by
  refine ⟨?_, ?_, ?_, ?_⟩ <;> intros <;> simp_all [find_name]

/-- C7 witness: the amended rule applied at a concrete document whose
`og:title` meta carries content. -/
theorem c7_witness :
    find_name c7wdoc =
      Node.getAttr (.elemN "meta" [("property", "og:title"), ("content", "Foo")] []) "content" :=
  (c7_name_presence_shortcircuit c7wdoc).1 _ rfl

/-- C8: when strategies 1–4 all fail, `locatePrice` is exactly the
currency-pattern fallback; every fallback result lies strictly inside the
display band `(10, 10000)` (so a value `≤ 10` is never returned); and the
loose text `€1.234,56` yields `1234.56`. -/
theorem c8_currency_fallback :
    (∀ doc : Doc, priceStrat1 doc = none → priceStrat2 doc = none →
       priceStrat3 doc priceDataAttrs = none → priceStrat4 doc pricePatterns = none →
       find_price doc = priceStrat5 doc) ∧
    (∀ ms v, firstBand ms = some v → 10 < v ∧ v < 10000) ∧
    find_price c8doc = some (123456 / 100) := by
  refine ⟨?_, firstBand_band, ?_⟩
  · intro doc h1 h2 h3 h4
    simp [find_price, h1, h2, h3, h4]
  · rw [show find_price c8doc = some (decVal ['1', '2', '3', '4'] ['5', '6']) from by decide,
       decVal_123456]

/-- C8 witness: the fallback clauses instantiated at the loose-text document
and at the concrete match list. -/
theorem c8_witness :
    find_price c8doc = priceStrat5 c8doc ∧
    (10 : ℚ) < 123456 / 100 ∧ (123456 / 100 : ℚ) < 10000 :=
  ⟨c8_currency_fallback.1 c8doc (by decide) (by decide) (by decide) (by decide),
   c8_currency_fallback.2.1 ["1.234,56"] (123456 / 100)
     (decVal_123456 ▸
       (by decide : firstBand ["1.234,56"] = some (decVal ['1', '2', '3', '4'] ['5', '6'])))⟩

/-- C9: the extraction engine is a pure function of the document and URL —
two calls on the same inputs yield identical results (the embedding carries
no state between calls, mirroring the source, whose only instance state is
the constant request-header dict). -/
theorem c9_deterministic (doc₁ doc₂ : Doc) (url₁ url₂ : String)
    (hdoc : doc₁ = doc₂) (hurl : url₁ = url₂) :
    extract doc₁ url₁ = extract doc₂ url₂ := by
  rw [hdoc, hurl]

/-- C9 witness: determinism instantiated at a concrete call. -/
theorem c9_witness : extract [] "u" = extract [] "u" :=
  c9_deterministic [] [] "u" "u" rfl rfl

/-- C10: an availability meta whose lowercased content contains
`indisponivel` or `unavailable` makes `locateStock` return `true`: the
positive keyword list is tested first and contains `disponivel` and
`available`, substrings of those negative keywords. -/
theorem c10_positive_before_negative (doc : Doc) (el : Node) (c : String)
    (hmeta : availMeta doc = some el)
    (hc : el.getAttr "content" = some c) (hne : c ≠ "")
    (hkw : strContains (lowerS c) "indisponivel" = true ∨
           strContains (lowerS c) "unavailable" = true) :
    find_stock doc = true := by
  have hpos : posAvailKw.any (fun k => strContains (lowerS c) k) = true := by
    rcases hkw with hk | hk
    · exact List.any_eq_true.mpr
        ⟨"disponivel", by decide, strContains_mono _ _ _ (by decide) hk⟩
    · exact List.any_eq_true.mpr
        ⟨"available", by decide, strContains_mono _ _ _ (by decide) hk⟩
  have h1 : stockStrat1 doc = some true := by
    simp [stockStrat1, hmeta, hc, hne, hpos]
  simp [find_stock, h1]

/-- C10 witness: the rule applied at a concrete document whose availability
meta content is `Indisponivel`. -/
theorem c10_witness : find_stock c10doc = true :=
  c10_positive_before_negative c10doc
    (.elemN "meta" [("property", "og:availability"), ("content", "Indisponivel")] [])
    "Indisponivel" rfl rfl (by decide) (Or.inl (by decide))

end WebScrape
